import Mathlib

/-!
Verification development for the PowerBI Control Chart visual.

The repository contains two versions of the same visual:
* `src/src/visual.ts` — control limits from per-subgroup standard deviations
  ("strategy B": `CalcStats(numsds)` with `useSDSubGroups`);
* `src/unnamed/part_000` — control limits from the average moving range
  ("strategy A": `CalcStats()` with `movingRange`, `mRError`, `LookUpd2`).

The computational core (visualTransform's data/guard logic, GetStages,
CalcStats of both versions, ApplyRules, LookUpd2, the moving-range clamping)
is embedded below as computable Lean functions over ℚ.  JavaScript numbers
are modelled as exact rationals; `Math.sqrt`, which appears only in
strategy B's `sd`, is handled at the theorem level with `Real.sqrt` applied
to the rational radicand that the embedding stores (field `sdArg`), since a
square root is not ℚ-computable.  D3/SVG drawing, colors, axis code and
tooltips — presentation glue per the spec — are not part of the embedding;
`DrawRulePoints(points)` is modelled as appending `points` to the list of
flagged indices.
-/

namespace ControlChart

/-- A primitive cell value of the host data view: a number, a date
(timestamp in milliseconds, as `Date.valueOf()` yields), a string, or
null/undefined.  This models the dynamic `PrimitiveValue` type. -/
inductive Prim where
  | num (q : ℚ)
  | date (ms : ℤ)
  | str (s : String)
  | null
deriving DecidableEq, Repr

/-- JavaScript truthiness of a primitive value (`0`, `""`, `null`,
`undefined` are falsy). -/
def Prim.truthy : Prim → Bool
  | .num q => q ≠ 0
  | .date _ => true
  | .str s => s ≠ ""
  | .null => false

/-- `valueOf()` of a primitive as a number: numbers are themselves, dates
are their millisecond timestamps.  Strings and null only reach numeric
positions through inputs the claims do not exercise; they are mapped to 0. -/
def Prim.numVal : Prim → ℚ
  | .num q => q
  | .date ms => (ms : ℚ)
  | .str _ => 0
  | .null => 0

/-- `ChartDataPoint` from both files: the x value is kept raw (number or
date), the y value is the numeric measure.  (`MRSum`, present in the
moving-range file, is initialized to 0 and never read, so it is omitted.) -/
structure ChartDataPoint where
  xValue : Prim
  yValue : ℚ
deriving DecidableEq, Repr

/-- `data[j].yValue` for a global point index `j`; out-of-range access
(never reached by the loops the claims exercise) yields 0. -/
def yAt (data : List ChartDataPoint) (j : ℕ) : ℚ :=
  ((data.get? j).map ChartDataPoint.yValue).getD 0

/-- The `Stage` record.  This is the union of the two files' interfaces:
`sd` exists only in the subgroup version, `mRError` only in the moving-range
version.  `sdArg` holds the *radicand* of the subgroup version's
`sd = Math.sqrt(sum/count)` (resp. `sum/(count-1)`); the code's `sd` is
`Real.sqrt sdArg` and its `uCL/lCL` are `mean ± numsds * Real.sqrt sdArg`,
which the theorems about strategy B state explicitly since they are
irrational.  Strategy A's `uCL/lCL` are rational and stored directly. -/
structure Stage where
  lCL : ℚ
  uCL : ℚ
  mean : ℚ
  startX : Prim
  endX : Prim
  sum : ℚ
  count : ℕ
  sdArg : ℚ
  stage : Prim
  stageDividerX : Prim
  firstId : ℕ
  lastId : ℕ
  mRError : Bool
deriving DecidableEq, Repr

/-- One mean/UCL/LCL line segment (`{x1, y1, x2, y2}`). -/
structure Segment where
  x1 : Prim
  y1 : ℚ
  x2 : Prim
  y2 : ℚ
deriving DecidableEq, Repr

/-! ## The d2 constant table (`LookUpd2`, moving-range file, lines 1160–1215) -/

/-- The fixed array `d2Array` of `LookUpd2`: 50 entries for window sizes
1..50. -/
def d2Array : List ℚ :=
  [1, 1.128, 1.693, 2.059, 2.326, 2.534, 2.704, 2.847, 2.97, 3.078,
   3.173, 3.258, 3.336, 3.407, 3.472, 3.532, 3.588, 3.64, 3.689, 3.735,
   3.778, 3.819, 3.858, 3.895, 3.931, 3.964, 3.997, 4.027, 4.057, 4.086,
   4.113, 4.139, 4.165, 4.189, 4.213, 4.236, 4.259, 4.28, 4.301, 4.322,
   4.341, 4.361, 4.379, 4.398, 4.415, 4.433, 4.45, 4.466, 4.482, 4.498]

/-- `LookUpd2(mr)`: `d2Array[mr-1]` for `mr > 0`, otherwise 1.  Callers pass
the clamped integer window 2..50; an index past the table (JS `undefined`)
is mapped to 0, which no claim reaches. -/
def LookUpd2 (mr : ℤ) : ℚ :=
  if mr > 0 then ((d2Array.get? (mr - 1).toNat).getD 0) else 1

/-! ## Moving-range window resolution (`visualTransform`, moving-range file,
lines 263–267) -/

/-- `Math.round`: round half away from zero toward +∞ (JS rounds `-2.5` to
`-2`), i.e. `⌊q + 1/2⌋`. -/
def jsRound (q : ℚ) : ℚ := (⌊q + 1/2⌋ : ℤ)

/-- The `movingRange` configuration resolution: `getValue(..., 2)` supplies
the default 2 when the setting is absent; values outside `[2,50]` are
replaced by 2; in-range values are rounded with `Math.round`. -/
def resolveMovingRange (raw : Option ℚ) : ℚ :=
  let mRange := raw.getD 2
  if mRange < 2 ∨ mRange > 50 then 2 else jsRound mRange

/-- Claim C10: the d2 lookup satisfies `LookUpd2 2 = 1.128` and
`LookUpd2 5 = 2.326`; `LookUpd2 n = 1` for every `n ≤ 0`; and the table is
a fixed 50-entry array whose values at window sizes 2, 3, 4, 5 are
1.128, 1.693, 2.059, 2.326 (the only reading of "values start 1.128, …"
consistent with the claim's own `D2Table(2) == 1.128`; the array's entry
for `n = 1` is 1). -/
theorem C10_d2_table :
    LookUpd2 2 = 1.128 ∧ LookUpd2 5 = 2.326 ∧
    (∀ n : ℤ, n ≤ 0 → LookUpd2 n = 1) ∧
    LookUpd2 3 = 1.693 ∧ LookUpd2 4 = 2.059 ∧ d2Array.length = 50 := by
  refine ⟨by rfl, by rfl, ?_, by rfl, by rfl, by rfl⟩
  intro n hn
  simp only [LookUpd2, if_neg (by omega : ¬ n > 0)]

/-- Witness for C10: the `n ≤ 0` clause instantiated at `n = -7`. -/
theorem C10_d2_table_witness : LookUpd2 (-7) = 1 :=
  C10_d2_table.2.2.1 (-7) (by norm_num)

/-- Claim C9: the moving-range window resolution never raises an error;
it defaults to 2, replaces out-of-range values by 2, rounds in-range
non-integers, and its result is always an integer in `[2, 50]`. -/
theorem C9_moving_range_window :
    resolveMovingRange none = 2 ∧
    resolveMovingRange (some 2.7) = 3 ∧
    resolveMovingRange (some 100) = 2 ∧
    resolveMovingRange (some 1) = 2 ∧
    resolveMovingRange (some 50) = 50 ∧
    ∀ raw : Option ℚ, ∃ z : ℤ, resolveMovingRange raw = (z : ℚ) ∧ 2 ≤ z ∧ z ≤ 50 := by
  refine ⟨by norm_num [resolveMovingRange, jsRound],
          by norm_num [resolveMovingRange, jsRound],
          by norm_num [resolveMovingRange, jsRound],
          by norm_num [resolveMovingRange, jsRound],
          by norm_num [resolveMovingRange, jsRound], ?_⟩
  intro raw
  unfold resolveMovingRange
  by_cases h : raw.getD 2 < 2 ∨ raw.getD 2 > 50
  · exact ⟨2, by simp [h], by norm_num, by norm_num⟩
  · push_neg at h
    refine ⟨⌊raw.getD 2 + 1/2⌋, by simp [h.1.not_lt, h.2.not_lt, jsRound], ?_, ?_⟩
    · exact Int.le_floor.mpr (by linarith [h.1])
    · rw [Int.floor_le_iff]
      push_cast
      linarith [h.2]

/-! ## The rule evaluator (`ApplyRules`, identical in both files;
moving-range file lines 1069–1150, subgroup file lines 1020–1101).

The evaluator keeps five JS arrays (`meanPoints`, `consecIncPoints`,
`consecDecPoints`, `consecutiveUPoints`, `consecutiveLPoints`); calls to
`DrawRulePoints` are modelled by appending the drawn index list to `flags`.
Indices are pushed at the end of the arrays, as `push` does. -/

/-- The three rule toggles from the view model. -/
structure RuleConfig where
  runRule1 : Bool
  runRule2 : Bool
  runRule3 : Bool
deriving DecidableEq, Repr

/-- The evaluator's mutable state. -/
structure RuleState where
  meanPoints : List ℕ
  incPoints : List ℕ
  decPoints : List ℕ
  uPoints : List ℕ
  lPoints : List ℕ
  flags : List ℕ
deriving DecidableEq, Repr

/-- The initial evaluator state: all arrays empty. -/
def RuleState.init : RuleState := ⟨[], [], [], [], [], []⟩

/-- Rule 1 for one point: `if (uCL < y[j] || lCL > y[j]) meanPoints.push(j)`. -/
def rule1Step (cfg : RuleConfig) (uCL lCL v : ℚ) (j : ℕ) (s : RuleState) : RuleState :=
  if cfg.runRule1 ∧ (uCL < v ∨ lCL > v) then
    { s with meanPoints := s.meanPoints ++ [j] }
  else s

/-- The increasing-run half of rule 2 at `j > 0`: a strictly greater value
extends the run, otherwise the run is flushed (drawn if longer than 5)
and restarted at `[j]`. -/
def rule2Inc (v vprev : ℚ) (j : ℕ) (s : RuleState) : RuleState :=
  if v > vprev then { s with incPoints := s.incPoints ++ [j] }
  else
    let sa := if s.incPoints.length > 5 then { s with flags := s.flags ++ s.incPoints } else s
    { sa with incPoints := [j] }

/-- The decreasing-run half of rule 2 at `j > 0`. -/
def rule2Dec (v vprev : ℚ) (j : ℕ) (s : RuleState) : RuleState :=
  if v < vprev then { s with decPoints := s.decPoints ++ [j] }
  else
    let sb := if s.decPoints.length > 5 then { s with flags := s.flags ++ s.decPoints } else s
    { sb with decPoints := [j] }

/-- Rule 2 for one point: the increasing-run update followed by the
decreasing-run update; at the global index `j = 0` the point is pushed
onto both runs. -/
def rule2Step (cfg : RuleConfig) (v vprev : ℚ) (j : ℕ) (s : RuleState) : RuleState :=
  if cfg.runRule2 then
    if j > 0 then rule2Dec v vprev j (rule2Inc v vprev j s)
    else { s with incPoints := s.incPoints ++ [j], decPoints := s.decPoints ++ [j] }
  else s

/-- Rule 3 for one point: a point strictly above the mean flushes the
below-run (drawn if longer than 8), clears it, and extends the above-run;
symmetrically below; a point exactly equal to the mean does nothing. -/
def rule3Step (cfg : RuleConfig) (mean v : ℚ) (j : ℕ) (s : RuleState) : RuleState :=
  if cfg.runRule3 then
    if v > mean then
      let s1 := if s.lPoints.length > 8 then { s with flags := s.flags ++ s.lPoints } else s
      { s1 with lPoints := [], uPoints := s1.uPoints ++ [j] }
    else if v < mean then
      let s1 := if s.uPoints.length > 8 then { s with flags := s.flags ++ s.uPoints } else s
      { s1 with uPoints := [], lPoints := s1.lPoints ++ [j] }
    else s
  else s

/-- One iteration of the inner loop of `ApplyRules` at global index `j`
inside a stage with limits `uCL/lCL` and center `mean`: rule 1, then
rule 2, then rule 3, as in the source. -/
def applyRulesPoint (cfg : RuleConfig) (data : List ChartDataPoint)
    (uCL lCL mean : ℚ) (j : ℕ) (s : RuleState) : RuleState :=
  rule3Step cfg mean (yAt data j) j
    (rule2Step cfg (yAt data j) (yAt data (j - 1)) j
      (rule1Step cfg uCL lCL (yAt data j) j s))

/-- The inclusive loop range `firstId..lastId` of a stage (empty when
`lastId < firstId`, as for the JS `for` loop). -/
def stageRange (st : Stage) : List ℕ :=
  List.range' st.firstId (st.lastId + 1 - st.firstId)

/-- The end-of-stage flushes of `ApplyRules`: draw `meanPoints` if
non-empty and clear it; draw the above/below-mean runs if longer than 8
and clear them; draw the increasing/decreasing runs if longer than 5 and
clear them.  These flushes are not guarded by the rule toggles in the
source. -/
def stageEnd (s : RuleState) : RuleState :=
  let s1 := if s.meanPoints.length > 0 then
      { s with flags := s.flags ++ s.meanPoints, meanPoints := [] } else s
  let s2 := if s1.lPoints.length > 8 then { s1 with flags := s1.flags ++ s1.lPoints } else s1
  let s3 := if s2.uPoints.length > 8 then { s2 with flags := s2.flags ++ s2.uPoints } else s2
  let s4 := { s3 with lPoints := [], uPoints := [] }
  let s5 := if s4.incPoints.length > 5 then { s4 with flags := s4.flags ++ s4.incPoints } else s4
  let s6 := if s5.decPoints.length > 5 then { s5 with flags := s5.flags ++ s5.decPoints } else s5
  { s6 with incPoints := [], decPoints := [] }

/-- Processing of one stage by `ApplyRules`: the inner loop over
`firstId..lastId` followed by the end-of-stage flushes. -/
def applyRulesStage (cfg : RuleConfig) (data : List ChartDataPoint)
    (st : Stage) (s : RuleState) : RuleState :=
  stageEnd ((stageRange st).foldl
    (fun acc j => applyRulesPoint cfg data st.uCL st.lCL st.mean j acc) s)

/-- `ApplyRules`: the outer loop over the stage list; the result is the
list of indices passed to `DrawRulePoints`, i.e. the highlighted points
(possibly with repetitions — recoloring an already recolored dot). -/
def ApplyRules (cfg : RuleConfig) (data : List ChartDataPoint)
    (stages : List Stage) : List ℕ :=
  (stages.foldl (fun s st => applyRulesStage cfg data st s) RuleState.init).flags

/-- A stage record with given limits, center and index range; the fields
the rule evaluator does not read are inert.  Used to state concrete
evaluator facts. -/
def mkStage (uCL lCL mean : ℚ) (firstId lastId : ℕ) : Stage :=
  ⟨lCL, uCL, mean, .null, .null, 0, 0, 0, .null, .null, firstId, lastId, false⟩

/-- A data-point list from a list of y values (the x values are irrelevant
to the evaluator). -/
def mkData (l : List ℚ) : List ChartDataPoint :=
  l.map (fun q => ⟨.null, q⟩)

theorem rule2Step_off {cfg : RuleConfig} (h : cfg.runRule2 = false)
    (v vprev : ℚ) (j : ℕ) (s : RuleState) : rule2Step cfg v vprev j s = s := by
  simp [rule2Step, h]

theorem rule3Step_off {cfg : RuleConfig} (h : cfg.runRule3 = false)
    (mean v : ℚ) (j : ℕ) (s : RuleState) : rule3Step cfg mean v j s = s := by
  simp [rule3Step, h]

theorem rule1Step_off {cfg : RuleConfig} (h : cfg.runRule1 = false)
    (u l v : ℚ) (j : ℕ) (s : RuleState) : rule1Step cfg u l v j s = s := by
  simp [rule1Step, h]

/-- With only rule 1 enabled, the inner loop appends exactly the indices
violating the limits to `meanPoints` and changes nothing else. -/
theorem foldl_point_rule1 (data : List ChartDataPoint) (u l m : ℚ)
    (js : List ℕ) (s : RuleState) :
    js.foldl (fun acc j => applyRulesPoint ⟨true, false, false⟩ data u l m j acc) s =
      { s with meanPoints :=
          s.meanPoints ++ js.filter (fun j => decide (u < yAt data j ∨ l > yAt data j)) } := by
  induction js generalizing s with
  | nil => simp
  | cons j js ih =>
    simp only [List.foldl_cons, List.filter_cons]
    have hpt : applyRulesPoint ⟨true, false, false⟩ data u l m j s =
        rule1Step ⟨true, false, false⟩ u l (yAt data j) j s := by
      rw [applyRulesPoint, rule2Step_off rfl, rule3Step_off rfl]
    rw [hpt]
    by_cases hc : u < yAt data j ∨ l > yAt data j
    · simp only [rule1Step, hc, and_true, if_pos, true_and]
      rw [ih]
      simp [hc, List.append_assoc]
    · simp only [rule1Step, hc, and_false, if_neg, not_false_iff]
      rw [ih]
      simp [hc]

/-- With only rule 1 enabled, a whole pass over the stage list turns a
clean state into a clean state and appends, per stage in order, the
violating indices of that stage's range. -/
theorem foldl_stage_rule1 (data : List ChartDataPoint) (stages : List Stage)
    (fl : List ℕ) :
    stages.foldl (fun s st => applyRulesStage ⟨true, false, false⟩ data st s)
        ⟨[], [], [], [], [], fl⟩ =
      ⟨[], [], [], [], [], fl ++ stages.flatMap (fun st => (stageRange st).filter
        (fun j => decide (st.uCL < yAt data j ∨ st.lCL > yAt data j)))⟩ := by
  induction stages generalizing fl with
  | nil => simp
  | cons st stages ih =>
    have hst : applyRulesStage ⟨true, false, false⟩ data st ⟨[], [], [], [], [], fl⟩ =
        ⟨[], [], [], [], [], fl ++ (stageRange st).filter
          (fun j => decide (st.uCL < yAt data j ∨ st.lCL > yAt data j))⟩ := by
      rw [applyRulesStage, foldl_point_rule1]
      cases hF : (stageRange st).filter
          (fun j => decide (st.uCL < yAt data j ∨ st.lCL > yAt data j)) with
      | nil => simp [stageEnd, hF]
      | cons a as => simp [stageEnd, hF]
    rw [List.foldl_cons, hst, ih]
    simp [List.append_assoc]

/-- Claim C8: with rule 1 enabled (and, to isolate it, rules 2 and 3 off)
the flagged indices are exactly those whose value is strictly above the
stage's `uCL` or strictly below its `lCL` — an index-by-index filter, with
no run length involved.  In particular a value exactly equal to a limit is
not flagged, and a value one unit beyond either limit is. -/
theorem C8_rule1_strict_violation :
    (∀ (data : List ChartDataPoint) (stages : List Stage),
      ApplyRules ⟨true, false, false⟩ data stages =
        stages.flatMap (fun st => (stageRange st).filter
          (fun j => decide (st.uCL < yAt data j ∨ st.lCL > yAt data j)))) ∧
    ApplyRules ⟨true, false, false⟩ (mkData [5]) [mkStage 5 1 3 0 0] = [] ∧
    ApplyRules ⟨true, false, false⟩ (mkData [1]) [mkStage 5 1 3 0 0] = [] ∧
    ApplyRules ⟨true, false, false⟩ (mkData [6]) [mkStage 5 1 3 0 0] = [0] ∧
    ApplyRules ⟨true, false, false⟩ (mkData [0]) [mkStage 5 1 3 0 0] = [0] := by
  refine ⟨?_, by rfl, by rfl, by rfl, by rfl⟩
  intro data stages
  rw [ApplyRules, RuleState.init, foldl_stage_rule1]
  simp

/-- With only rule 3 enabled, a sequence of points all strictly above the
center extends the above-run and never flags anything, provided the
below-run is empty. -/
theorem foldl_point_rule3_above (data : List ChartDataPoint) (u l m : ℚ)
    (mp ip dp fl : List ℕ) (js : List ℕ) :
    ∀ up : List ℕ, (∀ j ∈ js, m < yAt data j) →
    js.foldl (fun acc j => applyRulesPoint ⟨false, false, true⟩ data u l m j acc)
        ⟨mp, ip, dp, up, [], fl⟩ =
      ⟨mp, ip, dp, up ++ js, [], fl⟩ := by
  induction js with
  | nil => intro up hjs; simp
  | cons j js ih =>
    intro up hjs
    have hj : m < yAt data j := hjs j (by simp)
    have hpt : applyRulesPoint ⟨false, false, true⟩ data u l m j
        ⟨mp, ip, dp, up, [], fl⟩ = ⟨mp, ip, dp, up ++ [j], [], fl⟩ := by
      rw [applyRulesPoint, rule1Step_off rfl, rule2Step_off rfl]
      simp [rule3Step, hj]
    rw [List.foldl_cons, hpt, ih (up ++ [j]) (fun a ha => hjs a (by simp [ha]))]
    simp [List.append_assoc]

/-- Claim C2 counterexample: the claim states that a point exactly equal
to the stage mean breaks both runs, so in a single stage with mean 0 and
values `[1,1,1,1,1,0,1,1,1,1]` the two strictly-above runs have lengths 5
and 4 and nothing should be flagged.  The code does nothing at an
equal-to-mean point (neither counter is reset), so the above-run reaches
length 9 across the equal point and all nine non-equal indices are
flagged. -/
theorem C2_rule3_equal_point_cex :
    ApplyRules ⟨false, false, true⟩ (mkData [1, 1, 1, 1, 1, 0, 1, 1, 1, 1])
      [mkStage 0 0 0 0 9] = [0, 1, 2, 3, 4, 6, 7, 8, 9] := by
  rfl

/-- Claim C2 as amended: with rule 3 enabled, runs of points strictly
above (resp. strictly below) the stage mean are tracked per stage and
flagged in full when they have accumulated length > 8 at a break or at the
stage end — so 9 consecutive points strictly above the mean are all
flagged and 8 such points flag nothing; but a point exactly equal to the
mean is simply ignored: it neither extends nor breaks either run, so a
run may accumulate across it (second conjunct: mean 1, values
`[4,4,4,4,4,1,4,4,4,4]`). -/
theorem C2_rule3_run_about_center :
    (∀ (data : List ChartDataPoint) (st : Stage), st.firstId = 0 →
      st.lastId + 1 = data.length →
      (∀ j, j < data.length → st.mean < yAt data j) →
      ApplyRules ⟨false, false, true⟩ data [st] =
        if 8 < data.length then List.range data.length else []) ∧
    ApplyRules ⟨false, false, true⟩ (mkData [4, 4, 4, 4, 4, 1, 4, 4, 4, 4])
      [mkStage 0 0 1 0 9] = [0, 1, 2, 3, 4, 6, 7, 8, 9] := by
  refine ⟨?_, by rfl⟩
  intro data st h0 hn habove
  have hrange : stageRange st = List.range data.length := by
    rw [stageRange, h0, Nat.sub_zero, hn, ← List.range_eq_range']
  rw [ApplyRules, List.foldl_cons, List.foldl_nil, applyRulesStage, hrange,
    RuleState.init,
    foldl_point_rule3_above data st.uCL st.lCL st.mean [] [] [] [] _ []
      (fun j hj => habove j (List.mem_range.mp hj))]
  by_cases h8 : 8 < data.length
  · simp [stageEnd, h8]
  · simp [stageEnd, h8]

/-- Witness for C2: nine points strictly above a stage mean of 0 (values
1..9) are all flagged. -/
theorem C2_rule3_run_about_center_witness :
    ApplyRules ⟨false, false, true⟩ (mkData [1, 2, 3, 4, 5, 6, 7, 8, 9])
      [mkStage 0 0 0 0 8] = List.range 9 := by
  have h := C2_rule3_run_about_center.1
    (mkData [1, 2, 3, 4, 5, 6, 7, 8, 9]) (mkStage 0 0 0 0 8) rfl (by rfl)
    (by decide)
  simpa using h

/-- With only rule 2 enabled, a strictly increasing prefix accumulates the
whole prefix in the increasing run and just the latest point in the
decreasing run, flagging nothing along the way. -/
theorem foldl_point_rule2_inc (data : List ChartDataPoint) (u l m : ℚ)
    (hinc : ∀ j, j + 1 < data.length → yAt data j < yAt data (j + 1)) :
    ∀ k, 1 ≤ k → k ≤ data.length →
    (List.range k).foldl
        (fun acc j => applyRulesPoint ⟨false, true, false⟩ data u l m j acc)
        RuleState.init =
      ⟨[], List.range k, [k - 1], [], [], []⟩ := by
  intro k hk1 hklen
  induction k with
  | zero => omega
  | succ k ih =>
    rcases Nat.eq_or_lt_of_le hk1 with h1 | h1
    · rw [← h1]
      rfl
    · have hk : 1 ≤ k := by omega
      have hkl : k ≤ data.length := by omega
      have hprev : yAt data (k - 1) < yAt data k := by
        have := hinc (k - 1) (by omega)
        rwa [Nat.sub_add_cancel hk] at this
      have hk0 : k > 0 := hk
      have hnlt : ¬ yAt data k < yAt data (k - 1) := lt_asymm hprev
      rw [List.range_succ, List.foldl_append, ih hk hkl, List.foldl_cons,
        List.foldl_nil, applyRulesPoint, rule1Step_off rfl, rule3Step_off rfl]
      simp [rule2Step, rule2Inc, rule2Dec, hk0, hprev, hnlt, List.range_succ]

/-- Claim C7: with rule 2 enabled, runs of consecutive strictly
increasing (resp. strictly decreasing) points are tracked, reset to length
1 when the strict comparison with the previous point fails, and flagged in
full when they have accumulated length > 5 at a break or at the stage
end.  A whole single-stage strictly increasing series of more than 5
points is flagged in full (and of at most 5 points not at all), and
`[1,2,3,4,5,5]`, whose run is broken by the final equality, flags
nothing. -/
theorem C7_rule2_trend :
    (∀ (data : List ChartDataPoint) (st : Stage), st.firstId = 0 →
      st.lastId + 1 = data.length →
      (∀ j, j + 1 < data.length → yAt data j < yAt data (j + 1)) →
      ApplyRules ⟨false, true, false⟩ data [st] =
        if 5 < data.length then List.range data.length else []) ∧
    ApplyRules ⟨false, true, false⟩ (mkData [1, 2, 3, 4, 5, 6])
      [mkStage 0 0 0 0 5] = [0, 1, 2, 3, 4, 5] ∧
    ApplyRules ⟨false, true, false⟩ (mkData [1, 2, 3, 4, 5, 5])
      [mkStage 0 0 0 0 5] = [] := by
  refine ⟨?_, by rfl, by rfl⟩
  intro data st h0 hn hinc
  have hlen : 1 ≤ data.length := by omega
  have hrange : stageRange st = List.range data.length := by
    rw [stageRange, h0, Nat.sub_zero, hn, ← List.range_eq_range']
  rw [ApplyRules, List.foldl_cons, List.foldl_nil, applyRulesStage, hrange,
    foldl_point_rule2_inc data st.uCL st.lCL st.mean hinc data.length hlen
      le_rfl]
  by_cases h5 : 5 < data.length
  · simp [stageEnd, h5]
  · simp [stageEnd, h5]

/-- Witness for C7: the series `[1,2,3,4,5,6]` through the general clause:
six strictly increasing points in one stage are all flagged. -/
theorem C7_rule2_trend_witness :
    ApplyRules ⟨false, true, false⟩ (mkData [1, 2, 3, 4, 5, 6])
      [mkStage 0 0 0 0 5] = List.range 6 := by
  have h := C7_rule2_trend.1 (mkData [1, 2, 3, 4, 5, 6]) (mkStage 0 0 0 0 5)
    rfl (by rfl) (by
      intro j hj
      simp only [mkData, List.length_map, List.length_cons, List.length_nil] at hj
      have hj5 : j < 5 := by omega
      interval_cases j <;> decide)
  simpa using h

/-! ## The stage segmenter (`GetStages`, subgroup file lines 670–794,
moving-range file lines 702–813; the two copies differ only in how the
absence of a stage column is detected, which is factored into the
`labels` parameter here, and in the `sd`/`mRError` bookkeeping fields). -/

/-- The accumulator `stage` that `GetStages` declares before its loop
(all numeric fields 0, flags false, label and start position from the
first data point). -/
def initStage (x0 lab0 : Prim) : Stage :=
  { lCL := 0, uCL := 0, mean := 0, startX := x0, endX := Prim.null, sum := 0,
    count := 0, sdArg := 0, stage := lab0, stageDividerX := Prim.null,
    firstId := 0, lastId := 0, mRError := false }

/-- Closing the running stage at a label change seen at index `i`
(position `x`): the mean is fixed up from `sum/count` when `count > 0`,
`endX` becomes the previous point's position, the divider is the numeric
midpoint of the previous and current positions, and `lastId` is `i - 1`. -/
def closeStage (acc : Stage) (prevX x : Prim) (i : ℕ) : Stage :=
  { acc with
    mean := if acc.count > 0 then acc.sum / acc.count else acc.mean,
    endX := if i > 0 then prevX else x,
    stageDividerX := Prim.num ((x.numVal + prevX.numVal) / 2),
    lastId := i - 1 }

/-- Reseeding the accumulator with the point `p` at index `i` that opened
a new label `sv` (the fields not listed keep the closed stage's values,
as the source mutates one record in place). -/
def reopenStage (closed : Stage) (p : ChartDataPoint) (i : ℕ) (sv : Prim) : Stage :=
  { closed with
    mean := p.yValue, count := 1, sum := p.yValue,
    startX := p.xValue, firstId := i, stage := sv }

/-- The unconditional push of the running stage at the last point `p`
(index `i`, current label value `sv`): the divider of the final stage is
its own end position. -/
def finalStage (acc : Stage) (p : ChartDataPoint) (i : ℕ) (sv : Prim) : Stage :=
  { acc with
    mean := if acc.count > 0 then acc.sum / acc.count else acc.mean,
    endX := p.xValue, stage := sv, stageDividerX := p.xValue, lastId := i }

/-- Accumulating the point `p` into the running stage
(`stage.sum += obj.yValue; stage.count++`). -/
def accumStage (acc : Stage) (p : ChartDataPoint) : Stage :=
  { acc with sum := acc.sum + p.yValue, count := acc.count + 1 }

/-- The loop of `GetStages` over the remaining points, carrying the index
`i`, the previous point's position `prevX`, the running label `cur`
(`currentStage`) and the accumulator `acc`.  On each point the label
either continues the run (accumulate `sum`/`count`) or closes it and
reopens; at the last point the running stage is pushed unconditionally
(after the close, when the last point also changed the label). -/
def getStagesGo (lab : ℕ → Prim) :
    List ChartDataPoint → ℕ → Prim → Prim → Stage → List Stage
  | [], _, _, _, _ => []
  | p :: rest, i, prevX, cur, acc =>
    if cur = lab i then
      (if rest.isEmpty then [finalStage (accumStage acc p) p i (lab i)] else [])
        ++ getStagesGo lab rest (i + 1) p.xValue (lab i) (accumStage acc p)
    else
      closeStage acc prevX p.xValue i ::
        ((if rest.isEmpty then
            [finalStage (reopenStage (closeStage acc prevX p.xValue i) p i (lab i))
              p i (lab i)]
          else [])
          ++ getStagesGo lab rest (i + 1) p.xValue (lab i)
              (reopenStage (closeStage acc prevX p.xValue i) p i (lab i)))

/-- The per-index stage label: the second value column when present
(out-of-range modelled as JS `undefined`), the empty string when the
stage column is absent (`noStages`). -/
def stageLabelAt (labels : Option (List Prim)) (i : ℕ) : Prim :=
  match labels with
  | some ls => ls.getD i Prim.null
  | none => Prim.str ""

/-- `GetStages`: segment the point list into maximal runs of equal stage
labels.  (`GetStages` is only reached with a non-empty point list; the
empty case is mapped to the empty stage list.) -/
def GetStages (dps : List ChartDataPoint) (labels : Option (List Prim)) : List Stage :=
  match dps with
  | [] => []
  | p0 :: _ =>
    getStagesGo (stageLabelAt labels) dps 0 p0.xValue (stageLabelAt labels 0)
      (initStage p0.xValue (stageLabelAt labels 0))

@[simp] theorem accumStage_firstId (acc p) : (accumStage acc p).firstId = acc.firstId := rfl
@[simp] theorem accumStage_lastId (acc p) : (accumStage acc p).lastId = acc.lastId := rfl
@[simp] theorem accumStage_count (acc p) : (accumStage acc p).count = acc.count + 1 := rfl
@[simp] theorem accumStage_uCL (acc p) : (accumStage acc p).uCL = acc.uCL := rfl
@[simp] theorem accumStage_lCL (acc p) : (accumStage acc p).lCL = acc.lCL := rfl
@[simp] theorem accumStage_mRError (acc p) : (accumStage acc p).mRError = acc.mRError := rfl

@[simp] theorem closeStage_firstId (acc prevX x i) :
    (closeStage acc prevX x i).firstId = acc.firstId := rfl
@[simp] theorem closeStage_lastId (acc prevX x i) :
    (closeStage acc prevX x i).lastId = i - 1 := rfl
@[simp] theorem closeStage_count (acc prevX x i) :
    (closeStage acc prevX x i).count = acc.count := rfl
@[simp] theorem closeStage_uCL (acc prevX x i) :
    (closeStage acc prevX x i).uCL = acc.uCL := rfl
@[simp] theorem closeStage_lCL (acc prevX x i) :
    (closeStage acc prevX x i).lCL = acc.lCL := rfl
@[simp] theorem closeStage_mRError (acc prevX x i) :
    (closeStage acc prevX x i).mRError = acc.mRError := rfl

@[simp] theorem reopenStage_firstId (c p i sv) : (reopenStage c p i sv).firstId = i := rfl
@[simp] theorem reopenStage_lastId (c p i sv) : (reopenStage c p i sv).lastId = c.lastId := rfl
@[simp] theorem reopenStage_count (c p i sv) : (reopenStage c p i sv).count = 1 := rfl
@[simp] theorem reopenStage_uCL (c p i sv) : (reopenStage c p i sv).uCL = c.uCL := rfl
@[simp] theorem reopenStage_lCL (c p i sv) : (reopenStage c p i sv).lCL = c.lCL := rfl
@[simp] theorem reopenStage_mRError (c p i sv) : (reopenStage c p i sv).mRError = c.mRError := rfl

@[simp] theorem finalStage_firstId (acc p i sv) : (finalStage acc p i sv).firstId = acc.firstId := rfl
@[simp] theorem finalStage_lastId (acc p i sv) : (finalStage acc p i sv).lastId = i := rfl
@[simp] theorem finalStage_count (acc p i sv) : (finalStage acc p i sv).count = acc.count := rfl
@[simp] theorem finalStage_uCL (acc p i sv) : (finalStage acc p i sv).uCL = acc.uCL := rfl
@[simp] theorem finalStage_lCL (acc p i sv) : (finalStage acc p i sv).lCL = acc.lCL := rfl
@[simp] theorem finalStage_mRError (acc p i sv) : (finalStage acc p i sv).mRError = acc.mRError := rfl

/-- `chainFrom n k l` — the stage list `l` tiles the index interval
`[k, n-1]` exactly: each stage starts where the previous one stopped
(`firstId = k`, so no gaps, no overlaps, position order), each range is
non-empty (`firstId ≤ lastId`), and the last stage ends at `n - 1`. -/
def chainFrom (n : ℕ) : ℕ → List Stage → Bool
  | k, [] => k == n
  | k, st :: rest =>
    (st.firstId == k && decide (k ≤ st.lastId)) && chainFrom n (st.lastId + 1) rest

/-- The segmenter loop invariant: if the accumulator covers
`[acc.firstId, i-1]` (so `firstId + count = i`) then the produced stages
tile `[acc.firstId, i + length - 1]` exactly. -/
theorem getStagesGo_chain (lab : ℕ → Prim) :
    ∀ (dps : List ChartDataPoint) (i : ℕ) (prevX cur : Prim) (acc : Stage),
    dps ≠ [] →
    acc.firstId + acc.count = i →
    (acc.count = 0 → cur = lab i) →
    chainFrom (i + dps.length) acc.firstId
      (getStagesGo lab dps i prevX cur acc) = true := by
  intro dps
  induction dps with
  | nil => intro i _ _ _ h; exact absurd rfl h
  | cons p rest ih =>
    intro i prevX cur acc _ hcnt hcnt0
    rw [getStagesGo]
    by_cases hc : cur = lab i
    · rw [if_pos hc]
      cases rest with
      | nil =>
        simp [getStagesGo, chainFrom]
        omega
      | cons q rest2 =>
        simp only [List.isEmpty_cons, Bool.false_eq_true, if_false, List.nil_append]
        have hrec := ih (i + 1) p.xValue (lab i) (accumStage acc p)
          (by simp) (by simp; omega) (by simp)
        simp only [accumStage_firstId, List.length_cons] at hrec ⊢
        rw [show i + 1 + (rest2.length + 1) = i + (rest2.length + 1 + 1) from by omega]
          at hrec
        exact hrec
    · rw [if_neg hc]
      have hcount1 : 1 ≤ acc.count := by
        rcases Nat.eq_zero_or_pos acc.count with h0 | h1
        · exact absurd (hcnt0 h0) hc
        · exact h1
      have hi1 : 1 ≤ i := by omega
      cases rest with
      | nil =>
        simp [getStagesGo, chainFrom]
        omega
      | cons q rest2 =>
        simp only [List.isEmpty_cons, Bool.false_eq_true, if_false, List.nil_append]
        have hrec := ih (i + 1) p.xValue (lab i)
          (reopenStage (closeStage acc prevX p.xValue i) p i (lab i))
          (by simp) (by simp) (by simp)
        simp only [reopenStage_firstId, List.length_cons] at hrec
        rw [show i + 1 + (rest2.length + 1) = i + (rest2.length + 1 + 1) from by omega]
          at hrec
        simp only [chainFrom, List.length_cons, closeStage_firstId, closeStage_lastId,
          Bool.and_eq_true, beq_iff_eq, decide_eq_true_eq]
        refine ⟨⟨by simp, by omega⟩, ?_⟩
        rw [Nat.sub_add_cancel hi1]
        exact hrec

/-- Every stage the segmenter loop emits satisfies
`count = lastId - firstId + 1`. -/
theorem getStagesGo_count (lab : ℕ → Prim) :
    ∀ (dps : List ChartDataPoint) (i : ℕ) (prevX cur : Prim) (acc : Stage),
    acc.firstId + acc.count = i →
    (acc.count = 0 → cur = lab i) →
    ∀ st ∈ getStagesGo lab dps i prevX cur acc,
      st.firstId + st.count = st.lastId + 1 := by
  intro dps
  induction dps with
  | nil => intro i _ _ _ _ _ st hst; simp [getStagesGo] at hst
  | cons p rest ih =>
    intro i prevX cur acc hcnt hcnt0 st hst
    rw [getStagesGo] at hst
    by_cases hc : cur = lab i
    · rw [if_pos hc] at hst
      rcases List.mem_append.mp hst with hmem | hmem
      · cases rest with
        | nil =>
          simp at hmem
          subst hmem
          simp
          omega
        | cons q r2 => simp at hmem
      · exact ih (i + 1) p.xValue (lab i) (accumStage acc p)
          (by simp; omega) (by simp) st hmem
    · rw [if_neg hc] at hst
      have hcount1 : 1 ≤ acc.count := by
        rcases Nat.eq_zero_or_pos acc.count with h0 | h1
        · exact absurd (hcnt0 h0) hc
        · exact h1
      rcases List.mem_cons.mp hst with rfl | hmem
      · simp
        omega
      · rcases List.mem_append.mp hmem with hfin | hrec
        · cases rest with
          | nil =>
            simp at hfin
            subst hfin
            simp
          | cons q r2 => simp at hfin
        · exact ih (i + 1) p.xValue (lab i)
            (reopenStage (closeStage acc prevX p.xValue i) p i (lab i))
            (by simp) (by simp) st hrec

/-- Every stage the segmenter loop emits keeps the initializations
`uCL = 0`, `lCL = 0` and `mRError = false` (the limits are only set later
by `CalcStats`). -/
theorem getStagesGo_limits (lab : ℕ → Prim) :
    ∀ (dps : List ChartDataPoint) (i : ℕ) (prevX cur : Prim) (acc : Stage),
    acc.uCL = 0 → acc.lCL = 0 → acc.mRError = false →
    ∀ st ∈ getStagesGo lab dps i prevX cur acc,
      st.uCL = 0 ∧ st.lCL = 0 ∧ st.mRError = false := by
  intro dps
  induction dps with
  | nil => intro i _ _ _ _ _ _ st hst; simp [getStagesGo] at hst
  | cons p rest ih =>
    intro i prevX cur acc hu hl hm st hst
    rw [getStagesGo] at hst
    by_cases hc : cur = lab i
    · rw [if_pos hc] at hst
      rcases List.mem_append.mp hst with hmem | hmem
      · cases rest with
        | nil =>
          simp at hmem
          subst hmem
          simp [hu, hl, hm]
        | cons q r2 => simp at hmem
      · exact ih (i + 1) p.xValue (lab i) (accumStage acc p)
          (by simp [hu]) (by simp [hl]) (by simp [hm]) st hmem
    · rw [if_neg hc] at hst
      rcases List.mem_cons.mp hst with rfl | hmem
      · simp [hu, hl, hm]
      · rcases List.mem_append.mp hmem with hfin | hrec
        · cases rest with
          | nil =>
            simp at hfin
            subst hfin
            simp [hu, hl, hm]
          | cons q r2 => simp at hfin
        · exact ih (i + 1) p.xValue (lab i)
            (reopenStage (closeStage acc prevX p.xValue i) p i (lab i))
            (by simp [hu]) (by simp [hl]) (by simp [hm]) st hrec

/-- A stage list that tiles `[k, n-1]` and whose stages each have
`count = lastId - firstId + 1` has total count `n - k`. -/
theorem chainFrom_sum_count :
    ∀ (l : List Stage) (k n : ℕ), chainFrom n k l = true →
    (∀ st ∈ l, st.firstId + st.count = st.lastId + 1) →
    k + (l.map Stage.count).sum = n := by
  intro l
  induction l with
  | nil =>
    intro k n h _
    simp only [chainFrom, beq_iff_eq] at h
    simpa using h
  | cons st rest ih =>
    intro k n h hcount
    simp only [chainFrom, Bool.and_eq_true, beq_iff_eq, decide_eq_true_eq] at h
    have h1 := hcount st (by simp)
    have h2 := ih (st.lastId + 1) n h.2 (fun s hs => hcount s (by simp [hs]))
    simp only [List.map_cons, List.sum_cons]
    omega

/-- The segmenter output on a non-empty series tiles `[0, n-1]` and its
counts sum to `n`. -/
theorem GetStages_partition (dps : List ChartDataPoint)
    (labels : Option (List Prim)) (h : dps ≠ []) :
    chainFrom dps.length 0 (GetStages dps labels) = true ∧
    ((GetStages dps labels).map Stage.count).sum = dps.length := by
  cases dps with
  | nil => exact absurd rfl h
  | cons p0 rest =>
    have hch := getStagesGo_chain (stageLabelAt labels) (p0 :: rest) 0
      p0.xValue (stageLabelAt labels 0) (initStage p0.xValue (stageLabelAt labels 0))
      (by simp) (by simp [initStage]) (fun _ => rfl)
    have hcnt := getStagesGo_count (stageLabelAt labels) (p0 :: rest) 0
      p0.xValue (stageLabelAt labels 0) (initStage p0.xValue (stageLabelAt labels 0))
      (by simp [initStage]) (fun _ => rfl)
    have hch0 : chainFrom (p0 :: rest).length 0 (GetStages (p0 :: rest) labels) = true := by
      simpa [GetStages] using hch
    refine ⟨hch0, ?_⟩
    have := chainFrom_sum_count (GetStages (p0 :: rest) labels) 0 (p0 :: rest).length
      hch0 (by simpa [GetStages] using hcnt)
    simpa using this

/-- The segmenter output has `uCL = lCL = 0` and `mRError = false` on
every stage. -/
theorem GetStages_limits (dps : List ChartDataPoint)
    (labels : Option (List Prim)) :
    ∀ st ∈ GetStages dps labels, st.uCL = 0 ∧ st.lCL = 0 ∧ st.mRError = false := by
  cases dps with
  | nil => intro st hst; simp [GetStages] at hst
  | cons p0 rest =>
    intro st hst
    exact getStagesGo_limits (stageLabelAt labels) (p0 :: rest) 0
      p0.xValue (stageLabelAt labels 0) (initStage p0.xValue (stageLabelAt labels 0))
      rfl rfl rfl st (by simpa [GetStages] using hst)

/-! ## Strategy A: `CalcStats` of the moving-range file (lines 870–940).

The source makes one pass over the stages, doing three things per stage:
flag it (`mRError`) when the window exceeds its point count or compute its
limits from the average moving range, push its mean segment, and push its
UCL/LCL segments unless the stage is flagged.  The enrichment is a `map`
(each stage's limits depend only on that stage and the raw data) and the
segment lists are recursions over the enriched list carrying the previous
stage, which reproduces the loop exactly. -/

/-- One sliding-window range ending at index `j`: `max - min` of the
values at `k ∈ [j-mr+1, j]`.  The code seeds both extrema with
`data[j-1].yValue`, which lies inside the window since `mr ≥ 2` in every
reachable call, and scans the window downward; folding upward computes the
same extrema. -/
def windowRange (data : List ChartDataPoint) (mr j : ℕ) : ℚ :=
  let seed := yAt data (j - 1)
  let ks := List.range' (j + 1 - mr) mr
  |ks.foldl (fun m k => max m (yAt data k)) seed -
    ks.foldl (fun m k => min m (yAt data k)) seed|

/-- `rBar` of a stage: the window ranges at `j ∈ [firstId+mr-1, lastId]`
summed and divided by `count - mr + 1`. -/
def rBarOf (data : List ChartDataPoint) (mr : ℕ) (st : Stage) : ℚ :=
  let js := List.range' (st.firstId + mr - 1) (st.lastId + 1 - (st.firstId + mr - 1))
  (js.map (windowRange data mr)).sum / ((st.count : ℚ) - mr + 1)

/-- Per-stage limit computation of strategy A: a stage with fewer points
than the window only gets its `mRError` flag set (its `uCL`/`lCL` are not
computed and keep their current values); otherwise
`uCL/lCL = mean ± numsds * rBar / d2`. -/
def processStageMR (numsds : ℚ) (mr : ℕ) (d2 : ℚ) (data : List ChartDataPoint)
    (st : Stage) : Stage :=
  if mr > st.count then { st with mRError := true }
  else
    { st with
      uCL := st.mean + numsds * rBarOf data mr st / d2,
      lCL := st.mean - numsds * rBarOf data mr st / d2 }

/-- The mean segments for the stages after the first: stage `i` spans
`[divider(i-1), divider(i)]`; the drawn height is `y2` and the label
height `y1` is the previous stage's mean, exactly the pushed record. -/
def meanSegsGo : Stage → List Stage → List Segment
  | _, [] => []
  | prev, st :: rest =>
    ⟨prev.stageDividerX, prev.mean, st.stageDividerX, st.mean⟩ :: meanSegsGo st rest

/-- All mean segments: the first stage spans `[startX, dividerX]`. -/
def meanSegs : List Stage → List Segment
  | [] => []
  | st :: rest => ⟨st.startX, st.mean, st.stageDividerX, st.mean⟩ :: meanSegsGo st rest

/-- The UCL segments after the first stage: suppressed for a stage whose
`mRError` flag is set. -/
def uclSegsGo : Stage → List Stage → List Segment
  | _, [] => []
  | prev, st :: rest =>
    (if st.mRError then [] else [⟨prev.stageDividerX, st.uCL, st.stageDividerX, st.uCL⟩])
      ++ uclSegsGo st rest

/-- All UCL segments. -/
def uclSegs : List Stage → List Segment
  | [] => []
  | st :: rest =>
    (if st.mRError then [] else [⟨st.startX, st.uCL, st.stageDividerX, st.uCL⟩])
      ++ uclSegsGo st rest

/-- The LCL segments after the first stage (same suppression). -/
def lclSegsGo : Stage → List Stage → List Segment
  | _, [] => []
  | prev, st :: rest =>
    (if st.mRError then [] else [⟨prev.stageDividerX, st.lCL, st.stageDividerX, st.lCL⟩])
      ++ lclSegsGo st rest

/-- All LCL segments. -/
def lclSegs : List Stage → List Segment
  | [] => []
  | st :: rest =>
    (if st.mRError then [] else [⟨st.startX, st.lCL, st.stageDividerX, st.lCL⟩])
      ++ lclSegsGo st rest

/-- The outputs of strategy A's `CalcStats`: the enriched stages, the
three segment lists and the global insufficient-data flag
(`viewModel.mRError`). -/
structure CalcResultMR where
  stages : List Stage
  meanLine : List Segment
  uclLines : List Segment
  lclLines : List Segment
  mRError : Bool
deriving DecidableEq, Repr

/-- Strategy A's `CalcStats`: `d2 = LookUpd2(movingRange)`; each stage is
enriched independently; the global flag starts from the view model's
(`false` as initialized by `visualTransform`) and is set whenever a stage
is flagged. -/
def CalcStats_MR (numsds : ℚ) (mr : ℕ) (vmMRError : Bool)
    (data : List ChartDataPoint) (stages : List Stage) : CalcResultMR :=
  let stages1 := stages.map (processStageMR numsds mr (LookUpd2 mr) data)
  { stages := stages1
    meanLine := meanSegs stages1
    uclLines := uclSegs stages1
    lclLines := lclSegs stages1
    mRError := stages.foldl (fun b st => if mr > st.count then true else b) vmMRError }

theorem foldl_mrflag_stays (mr : ℕ) :
    ∀ (stages : List Stage),
    stages.foldl (fun b st => if mr > st.count then true else b) true = true := by
  intro stages
  induction stages with
  | nil => rfl
  | cons st rest ih =>
    rw [List.foldl_cons]
    by_cases h : mr > st.count
    · simp only [if_pos h]; exact ih
    · simp only [if_neg h]; exact ih

theorem foldl_mrflag_true (mr : ℕ) :
    ∀ (stages : List Stage) (b : Bool) (st : Stage), st ∈ stages → mr > st.count →
    stages.foldl (fun b st => if mr > st.count then true else b) b = true := by
  intro stages
  induction stages with
  | nil => intro b st h; simp at h
  | cons hd rest ih =>
    intro b st hmem hcnt
    rw [List.foldl_cons]
    rcases List.mem_cons.mp hmem with rfl | hmem2
    · rw [if_pos hcnt]
      exact foldl_mrflag_stays mr rest
    · by_cases h : mr > hd.count
      · rw [if_pos h]; exact foldl_mrflag_stays mr rest
      · rw [if_neg h]; exact ih b st hmem2 hcnt

theorem meanSegsGo_length : ∀ (l : List Stage) (prev : Stage),
    (meanSegsGo prev l).length = l.length := by
  intro l
  induction l with
  | nil => intro prev; rfl
  | cons st rest ih => intro prev; simp [meanSegsGo, ih st]

theorem meanSegs_length (l : List Stage) : (meanSegs l).length = l.length := by
  cases l with
  | nil => rfl
  | cons st rest => simp [meanSegs, meanSegsGo_length]

theorem uclSegsGo_length : ∀ (l : List Stage) (prev : Stage),
    (uclSegsGo prev l).length = (l.filter (fun s => !s.mRError)).length := by
  intro l
  induction l with
  | nil => intro prev; rfl
  | cons st rest ih =>
    intro prev
    by_cases h : st.mRError <;>
      simp [uclSegsGo, List.filter_cons, h, ih st]

theorem uclSegs_length (l : List Stage) :
    (uclSegs l).length = (l.filter (fun s => !s.mRError)).length := by
  cases l with
  | nil => rfl
  | cons st rest =>
    by_cases h : st.mRError <;>
      simp [uclSegs, List.filter_cons, h, uclSegsGo_length]

theorem lclSegsGo_length : ∀ (l : List Stage) (prev : Stage),
    (lclSegsGo prev l).length = (l.filter (fun s => !s.mRError)).length := by
  intro l
  induction l with
  | nil => intro prev; rfl
  | cons st rest ih =>
    intro prev
    by_cases h : st.mRError <;>
      simp [lclSegsGo, List.filter_cons, h, ih st]

theorem lclSegs_length (l : List Stage) :
    (lclSegs l).length = (l.filter (fun s => !s.mRError)).length := by
  cases l with
  | nil => rfl
  | cons st rest =>
    by_cases h : st.mRError <;>
      simp [lclSegs, List.filter_cons, h, lclSegsGo_length]

/-- On a stage list whose `mRError` flags are all clear, the stages kept
after enrichment are exactly those with `count ≥ mr`. -/
theorem processed_filter_length (numsds : ℚ) (mr : ℕ) (data : List ChartDataPoint) :
    ∀ (stages : List Stage), (∀ s ∈ stages, s.mRError = false) →
    ((stages.map (processStageMR numsds mr (LookUpd2 mr) data)).filter
        (fun s => !s.mRError)).length
      = (stages.filter (fun s => decide (mr ≤ s.count))).length := by
  intro stages
  induction stages with
  | nil => intro _; rfl
  | cons st rest ih =>
    intro hclean
    have hst := hclean st (by simp)
    have hrest := fun s (hs : s ∈ rest) => hclean s (List.mem_cons_of_mem st hs)
    by_cases h : mr > st.count
    · simp [List.filter_cons, processStageMR, h, Nat.not_le.mpr h, ih hrest]
    · simp [List.filter_cons, processStageMR, h, Nat.le_of_not_lt h, hst, ih hrest]

/-- A stage literal with a given mean, count and index range, the other
fields inert, used for concrete strategy-A inputs. -/
def mkStageCnt (mean : ℚ) (count firstId lastId : ℕ) : Stage :=
  ⟨0, 0, mean, .null, .null, 0, count, 0, .null, .null, firstId, lastId, false⟩

/-- Claim C4: in strategy A, a stage with fewer points than the window
gets its `mRError` flag set (and nothing else changes on it — in
particular no `uCL/lCL` is computed for it), the global warning flag is
set, the stage contributes no UCL and no LCL segment (their counts equal
the number of stages with enough points) but every stage contributes a
mean segment, and every stage with `count ≥ window` gets the normal
limits `mean ± numsds * rBar / d2`. -/
theorem C4_mr_insufficient_data (numsds : ℚ) (mr : ℕ)
    (data : List ChartDataPoint) (stages : List Stage) (i : ℕ) (st : Stage)
    (hclean : ∀ s ∈ stages, s.mRError = false)
    (hget : stages.get? i = some st) (hlt : st.count < mr) :
    (CalcStats_MR numsds mr false data stages).stages.get? i
        = some { st with mRError := true } ∧
    (CalcStats_MR numsds mr false data stages).mRError = true ∧
    (CalcStats_MR numsds mr false data stages).meanLine.length = stages.length ∧
    (CalcStats_MR numsds mr false data stages).uclLines.length
        = (stages.filter (fun s => decide (mr ≤ s.count))).length ∧
    (CalcStats_MR numsds mr false data stages).lclLines.length
        = (stages.filter (fun s => decide (mr ≤ s.count))).length ∧
    ∀ j sj, stages.get? j = some sj → mr ≤ sj.count →
      (CalcStats_MR numsds mr false data stages).stages.get? j
        = some { sj with
            uCL := sj.mean + numsds * rBarOf data mr sj / LookUpd2 mr,
            lCL := sj.mean - numsds * rBarOf data mr sj / LookUpd2 mr } := by
  refine ⟨?_, ?_, ?_, ?_, ?_, ?_⟩
  · show (stages.map (processStageMR numsds mr (LookUpd2 mr) data)).get? i = _
    rw [List.get?_map, hget]
    simp [processStageMR, hlt]
  · exact foldl_mrflag_true mr stages false st (List.get?_mem hget) hlt
  · show (meanSegs (stages.map (processStageMR numsds mr (LookUpd2 mr) data))).length = _
    rw [meanSegs_length, List.length_map]
  · show (uclSegs (stages.map (processStageMR numsds mr (LookUpd2 mr) data))).length = _
    rw [uclSegs_length, processed_filter_length numsds mr data stages hclean]
  · show (lclSegs (stages.map (processStageMR numsds mr (LookUpd2 mr) data))).length = _
    rw [lclSegs_length, processed_filter_length numsds mr data stages hclean]
  · intro j sj hj hcnt
    show (stages.map (processStageMR numsds mr (LookUpd2 mr) data)).get? j = _
    rw [List.get?_map, hj]
    simp [processStageMR, Nat.not_lt.mpr hcnt]

/-- Witness for C4: window 2, two stages of a 3-point series; the second
stage has a single point, so it is flagged, the global flag is set, only
one UCL/LCL segment survives next to two mean segments, and the first
stage gets `10.5 ± 3 * 1 / 1.128`. -/
theorem C4_mr_insufficient_data_witness :
    (CalcStats_MR 3 2 false (mkData [10, 11, 5])
        [mkStageCnt (21/2) 2 0 1, mkStageCnt 5 1 2 2]).mRError = true ∧
    (CalcStats_MR 3 2 false (mkData [10, 11, 5])
        [mkStageCnt (21/2) 2 0 1, mkStageCnt 5 1 2 2]).stages.get? 1
      = some { mkStageCnt 5 1 2 2 with mRError := true } ∧
    (CalcStats_MR 3 2 false (mkData [10, 11, 5])
        [mkStageCnt (21/2) 2 0 1, mkStageCnt 5 1 2 2]).meanLine.length = 2 ∧
    (CalcStats_MR 3 2 false (mkData [10, 11, 5])
        [mkStageCnt (21/2) 2 0 1, mkStageCnt 5 1 2 2]).uclLines.length = 1 := by
  have h := C4_mr_insufficient_data 3 2 (mkData [10, 11, 5])
    [mkStageCnt (21/2) 2 0 1, mkStageCnt 5 1 2 2] 1 (mkStageCnt 5 1 2 2)
    (by decide) (by rfl) (by decide)
  exact ⟨h.2.1, h.1, by rw [h.2.2.1]; rfl, by rw [h.2.2.2.1]; rfl⟩

/-! Flag-membership lemmas for the evaluator: each step either keeps the
drawn-index list or appends to it, rule 1's buffer `meanPoints` is only
ever extended during a stage and is flushed into the drawn list at the
stage end. -/

theorem rule1Step_flags (cfg : RuleConfig) (u l v : ℚ) (j : ℕ) (s : RuleState) :
    (rule1Step cfg u l v j s).flags = s.flags := by
  rw [rule1Step]; split <;> rfl

theorem rule2Inc_flags_mono (v vp : ℚ) (j : ℕ) (s : RuleState)
    (x : ℕ) (hx : x ∈ s.flags) : x ∈ (rule2Inc v vp j s).flags := by
  rw [rule2Inc]; split_ifs <;> simp [hx]

theorem rule2Dec_flags_mono (v vp : ℚ) (j : ℕ) (s : RuleState)
    (x : ℕ) (hx : x ∈ s.flags) : x ∈ (rule2Dec v vp j s).flags := by
  rw [rule2Dec]; split_ifs <;> simp [hx]

theorem rule2Step_flags_mono (cfg : RuleConfig) (v vp : ℚ) (j : ℕ) (s : RuleState)
    (x : ℕ) (hx : x ∈ s.flags) : x ∈ (rule2Step cfg v vp j s).flags := by
  rw [rule2Step]
  split_ifs
  · exact rule2Dec_flags_mono v vp j _ x (rule2Inc_flags_mono v vp j s x hx)
  · exact hx
  · exact hx

theorem rule3Step_flags_mono (cfg : RuleConfig) (m v : ℚ) (j : ℕ) (s : RuleState)
    (x : ℕ) (hx : x ∈ s.flags) : x ∈ (rule3Step cfg m v j s).flags := by
  rw [rule3Step]; split_ifs <;> simp [hx]

theorem applyRulesPoint_flags_mono (cfg : RuleConfig) (data : List ChartDataPoint)
    (u l m : ℚ) (j : ℕ) (s : RuleState) (x : ℕ) (hx : x ∈ s.flags) :
    x ∈ (applyRulesPoint cfg data u l m j s).flags := by
  rw [applyRulesPoint]
  exact rule3Step_flags_mono _ _ _ _ _ _
    (rule2Step_flags_mono _ _ _ _ _ _ (by rw [rule1Step_flags]; exact hx))

theorem rule2Inc_meanPoints (v vp : ℚ) (j : ℕ) (s : RuleState) :
    (rule2Inc v vp j s).meanPoints = s.meanPoints := by
  rw [rule2Inc]; split_ifs <;> rfl

theorem rule2Dec_meanPoints (v vp : ℚ) (j : ℕ) (s : RuleState) :
    (rule2Dec v vp j s).meanPoints = s.meanPoints := by
  rw [rule2Dec]; split_ifs <;> rfl

theorem rule2Step_meanPoints (cfg : RuleConfig) (v vp : ℚ) (j : ℕ) (s : RuleState) :
    (rule2Step cfg v vp j s).meanPoints = s.meanPoints := by
  rw [rule2Step]
  split_ifs
  · rw [rule2Dec_meanPoints, rule2Inc_meanPoints]
  · rfl
  · rfl

theorem rule3Step_meanPoints (cfg : RuleConfig) (m v : ℚ) (j : ℕ) (s : RuleState) :
    (rule3Step cfg m v j s).meanPoints = s.meanPoints := by
  rw [rule3Step]; split_ifs <;> rfl

theorem applyRulesPoint_meanPoints_mono (cfg : RuleConfig)
    (data : List ChartDataPoint) (u l m : ℚ) (j : ℕ) (s : RuleState)
    (x : ℕ) (hx : x ∈ s.meanPoints) :
    x ∈ (applyRulesPoint cfg data u l m j s).meanPoints := by
  rw [applyRulesPoint, rule3Step_meanPoints, rule2Step_meanPoints, rule1Step]
  split_ifs <;> simp [hx]

theorem applyRulesPoint_meanPoints_self (cfg : RuleConfig)
    (data : List ChartDataPoint) (u l m : ℚ) (j : ℕ) (s : RuleState)
    (hr1 : cfg.runRule1 = true) (hcond : u < yAt data j ∨ l > yAt data j) :
    j ∈ (applyRulesPoint cfg data u l m j s).meanPoints := by
  rw [applyRulesPoint, rule3Step_meanPoints, rule2Step_meanPoints, rule1Step,
    if_pos ⟨hr1, hcond⟩]
  simp

theorem foldl_point_flags_mono (cfg : RuleConfig) (data : List ChartDataPoint)
    (u l m : ℚ) : ∀ (js : List ℕ) (s : RuleState) (x : ℕ), x ∈ s.flags →
    x ∈ (js.foldl (fun acc j => applyRulesPoint cfg data u l m j acc) s).flags := by
  intro js
  induction js with
  | nil => intro s x hx; exact hx
  | cons j js ih =>
    intro s x hx
    exact ih _ x (applyRulesPoint_flags_mono cfg data u l m j s x hx)

theorem foldl_point_meanPoints_mono (cfg : RuleConfig) (data : List ChartDataPoint)
    (u l m : ℚ) : ∀ (js : List ℕ) (s : RuleState) (x : ℕ), x ∈ s.meanPoints →
    x ∈ (js.foldl (fun acc j => applyRulesPoint cfg data u l m j acc) s).meanPoints := by
  intro js
  induction js with
  | nil => intro s x hx; exact hx
  | cons j js ih =>
    intro s x hx
    exact ih _ x (applyRulesPoint_meanPoints_mono cfg data u l m j s x hx)

theorem foldl_point_meanPoints_self (cfg : RuleConfig) (data : List ChartDataPoint)
    (u l m : ℚ) (hr1 : cfg.runRule1 = true) :
    ∀ (js : List ℕ) (s : RuleState) (j : ℕ), j ∈ js →
    (u < yAt data j ∨ l > yAt data j) →
    j ∈ (js.foldl (fun acc a => applyRulesPoint cfg data u l m a acc) s).meanPoints := by
  intro js
  induction js with
  | nil => intro s j h; simp at h
  | cons a js ih =>
    intro s j hmem hcond
    rcases List.mem_cons.mp hmem with rfl | hmem2
    · exact foldl_point_meanPoints_mono cfg data u l m js _ j
        (applyRulesPoint_meanPoints_self cfg data u l m j s hr1 hcond)
    · exact ih _ j hmem2 hcond

theorem stageEnd_flags_mono (s : RuleState) (x : ℕ) (hx : x ∈ s.flags) :
    x ∈ (stageEnd s).flags := by
  simp only [stageEnd]
  split_ifs <;> simp [hx]

theorem stageEnd_meanPoints_flags (s : RuleState) (x : ℕ) (hx : x ∈ s.meanPoints) :
    x ∈ (stageEnd s).flags := by
  have hne : s.meanPoints.length > 0 :=
    List.length_pos.mpr (List.ne_nil_of_mem hx)
  simp only [stageEnd, if_pos hne]
  split_ifs <;> simp [hx]

theorem applyRulesStage_flags_mono (cfg : RuleConfig) (data : List ChartDataPoint)
    (st : Stage) (s : RuleState) (x : ℕ) (hx : x ∈ s.flags) :
    x ∈ (applyRulesStage cfg data st s).flags := by
  rw [applyRulesStage]
  exact stageEnd_flags_mono _ x
    (foldl_point_flags_mono cfg data st.uCL st.lCL st.mean _ s x hx)

theorem applyRulesStage_rule1_self (cfg : RuleConfig) (data : List ChartDataPoint)
    (st : Stage) (s : RuleState) (j : ℕ) (hr1 : cfg.runRule1 = true)
    (h1 : st.firstId ≤ j) (h2 : j ≤ st.lastId)
    (hcond : st.uCL < yAt data j ∨ st.lCL > yAt data j) :
    j ∈ (applyRulesStage cfg data st s).flags := by
  rw [applyRulesStage]
  refine stageEnd_meanPoints_flags _ j ?_
  refine foldl_point_meanPoints_self cfg data st.uCL st.lCL st.mean hr1 _ s j ?_ hcond
  rw [stageRange, List.mem_range'_1]
  omega

theorem foldl_stage_flags_mono (cfg : RuleConfig) (data : List ChartDataPoint) :
    ∀ (stages : List Stage) (s : RuleState) (x : ℕ), x ∈ s.flags →
    x ∈ (stages.foldl (fun s st => applyRulesStage cfg data st s) s).flags := by
  intro stages
  induction stages with
  | nil => intro s x hx; exact hx
  | cons st rest ih =>
    intro s x hx
    rw [List.foldl_cons]
    exact ih _ x (applyRulesStage_flags_mono cfg data st s x hx)

/-- Rule-1 completeness of the evaluator: whatever the other toggles,
with `runRule1` on every in-range index whose value violates its stage's
limits ends up drawn. -/
theorem ApplyRules_rule1_complete (cfg : RuleConfig) (data : List ChartDataPoint)
    (hr1 : cfg.runRule1 = true) :
    ∀ (stages : List Stage) (s : RuleState) (i : ℕ) (st : Stage) (j : ℕ),
    stages.get? i = some st → st.firstId ≤ j → j ≤ st.lastId →
    (st.uCL < yAt data j ∨ st.lCL > yAt data j) →
    j ∈ (stages.foldl (fun s st => applyRulesStage cfg data st s) s).flags := by
  intro stages
  induction stages with
  | nil => intro s i st j hget; simp at hget
  | cons hd rest ih =>
    intro s i st j hget h1 h2 hcond
    cases i with
    | zero =>
      rw [List.get?_cons_zero, Option.some.injEq] at hget
      subst hget
      rw [List.foldl_cons]
      exact foldl_stage_flags_mono cfg data rest _ j
        (applyRulesStage_rule1_self cfg data hd s j hr1 h1 h2 hcond)
    | succ i2 =>
      rw [List.get?_cons_succ] at hget
      rw [List.foldl_cons]
      exact ih _ i2 st j hget h1 h2 hcond

/-- Claim C5: in the strategy-A pipeline, a stage with fewer points than
the window keeps the `uCL = 0`, `lCL = 0` initialized by `GetStages`, and
the rule evaluator still scans it, so with `runRule1` on every point of
the stage with a nonzero value is flagged by rule 1. -/
theorem C5_mr_error_stage_rule1 (dps : List ChartDataPoint)
    (labels : Option (List Prim)) (numsds : ℚ) (mr : ℕ) (cfg : RuleConfig)
    (i : ℕ) (st : Stage) (hr1 : cfg.runRule1 = true)
    (hget : (CalcStats_MR numsds mr false dps (GetStages dps labels)).stages.get? i
      = some st)
    (hcnt : st.count < mr) :
    st.uCL = 0 ∧ st.lCL = 0 ∧ st.mRError = true ∧
    ∀ j, st.firstId ≤ j → j ≤ st.lastId → yAt dps j ≠ 0 →
      j ∈ ApplyRules cfg dps
        (CalcStats_MR numsds mr false dps (GetStages dps labels)).stages := by
  have hmap : (CalcStats_MR numsds mr false dps (GetStages dps labels)).stages
      = (GetStages dps labels).map (processStageMR numsds mr (LookUpd2 mr) dps) := rfl
  rw [hmap, List.get?_map] at hget
  cases hget0 : (GetStages dps labels).get? i with
  | none => rw [hget0] at hget; simp at hget
  | some st0 =>
    rw [hget0] at hget
    simp at hget
    have hlim := GetStages_limits dps labels st0 (List.get?_mem hget0)
    have hcnt0 : st0.count < mr := by
      have : st.count = st0.count := by
        rw [← hget, processStageMR]
        split_ifs <;> rfl
      omega
    have hst : st = { st0 with mRError := true } := by
      rw [← hget, processStageMR, if_pos hcnt0]
    have hu : st.uCL = 0 := by rw [hst]; exact hlim.1
    have hl : st.lCL = 0 := by rw [hst]; exact hlim.2.1
    refine ⟨hu, hl, by rw [hst], ?_⟩
    intro j hj1 hj2 hval
    have hcond : st.uCL < yAt dps j ∨ st.lCL > yAt dps j := by
      rcases lt_or_gt_of_ne hval with hneg | hpos
      · right; rw [hl]; exact hneg
      · left; rw [hu]; exact hpos
    rw [ApplyRules]
    exact ApplyRules_rule1_complete cfg dps hr1 _ RuleState.init i st j
      (by rw [hmap, List.get?_map, hget0]; simp [hget]) hj1 hj2 hcond

/-- Witness for C5: series `[10, 11, 5]` with labels `A, A, B` and window
2; the one-point stage `B` keeps `uCL = lCL = 0` and its point (value 5,
index 2) is flagged by rule 1. -/
theorem C5_mr_error_stage_rule1_witness :
    (⟨0, 0, 5, .null, .null, 5, 1, 0, .str "B", .null, 2, 2, true⟩ : Stage).uCL = 0 ∧
    2 ∈ ApplyRules ⟨true, false, false⟩ (mkData [10, 11, 5])
      (CalcStats_MR 3 2 false (mkData [10, 11, 5])
        (GetStages (mkData [10, 11, 5])
          (some [.str "A", .str "A", .str "B"]))).stages := by
  have hAB : (("A" : String) = "B") ↔ False :=
    ⟨fun h => absurd h (by decide), False.elim⟩
  have hget : (CalcStats_MR 3 2 false (mkData [10, 11, 5])
      (GetStages (mkData [10, 11, 5])
        (some [.str "A", .str "A", .str "B"]))).stages.get? 1
      = some (⟨0, 0, 5, .null, .null, 5, 1, 0, .str "B", .null, 2, 2, true⟩ : Stage) := by
    norm_num [CalcStats_MR, GetStages, getStagesGo, stageLabelAt, initStage, accumStage,
      closeStage, reopenStage, finalStage, processStageMR, mkData, Prim.numVal, hAB]
  have h := C5_mr_error_stage_rule1 (mkData [10, 11, 5])
    (some [.str "A", .str "A", .str "B"]) 3 2 ⟨true, false, false⟩ 1
    (⟨0, 0, 5, .null, .null, 5, 1, 0, .str "B", .null, 2, 2, true⟩ : Stage)
    rfl hget (by decide)
  exact ⟨h.1, h.2.2.2 2 (by decide) (by decide) (by decide)⟩

/-! ## Strategy B: `CalcStats(numsds)` of the subgroup file (lines
853–951), with `findIndexByKeyValue` (824–831) and `GetUnique` (834–851). -/

/-- A `SubGroup`: the per-label aggregate `{mean, sum, count, stage}`. -/
structure SubGroup where
  mean : ℚ
  sum : ℚ
  count : ℕ
  stage : Prim
deriving DecidableEq, Repr

/-- The scan loop of `findIndexByKeyValue`, carrying the running index. -/
def findIndexByKeyValueGo (v : Prim) : List SubGroup → ℕ → Option ℕ
  | [], _ => none
  | sg :: rest, i => if sg.stage = v then some i else findIndexByKeyValueGo v rest (i + 1)

/-- `findIndexByKeyValue(arr, "stage", v)`: the index of the first entry
whose `stage` equals `v`, JS `null` (here `none`) when absent. -/
def findIndexByKeyValue (l : List SubGroup) (v : Prim) : Option ℕ :=
  findIndexByKeyValueGo v l 0

/-- `GetUnique(src)`: fold the stages into per-label subgroups.  An unseen
label pushes `{stage, sum, count, mean}`; a seen one merges `sum` and
`count` into the first entry with that label and refreshes its `mean`.
(The source tracks seen labels in the `unique` object; a label is in
`unique` exactly when it already occurs in `distinct`, so the lookup
replaces the object.) -/
def GetUnique (src : List Stage) : List SubGroup :=
  src.foldl
    (fun distinct st =>
      match findIndexByKeyValue distinct st.stage with
      | none => distinct ++ [⟨st.mean, st.sum, st.count, st.stage⟩]
      | some idx =>
        match distinct[idx]? with
        | none => distinct
        | some sg =>
          let sum1 := sg.sum + st.sum
          let count1 := sg.count + st.count
          distinct.set idx
            { sg with
              sum := sum1, count := count1,
              mean := if count1 > 0 then sum1 / (count1 : ℚ) else sg.mean })
    []

/-- The inner `j` loop of the first pass: the sum of squared deviations of
the points `a..b` from `m` (`diff * diff` accumulated). -/
def sumDiffSq (data : List ChartDataPoint) (a b : ℕ) (m : ℚ) : ℚ :=
  ((List.range' a (b + 1 - a)).map
    (fun j => (yAt data j - m) * (yAt data j - m))).sum

/-- The first pass of strategy B's `CalcStats` with `useSDSubGroups` on:
each stage's `count/sum/mean` are overwritten with its subgroup's, and the
squared deviations of the stage's points from the subgroup mean are
*added to the subgroup's `sum`* — which at this point still holds the raw
sum of y values and is never reset, so after this pass a subgroup's `sum`
is `(Σ y) + (Σ (y - mean)²)` rather than the sum of squares.  (The `none`
fallbacks are unreachable: `GetUnique` contains every stage label; the
source would throw there.) -/
def sdPass1Agg (data : List ChartDataPoint) (stages : List Stage)
    (sgs0 : List SubGroup) : List Stage × List SubGroup :=
  stages.foldl
    (fun acc st =>
      match findIndexByKeyValue acc.2 st.stage with
      | none => (acc.1 ++ [st], acc.2)
      | some idx =>
        match acc.2[idx]? with
        | none => (acc.1 ++ [st], acc.2)
        | some sg =>
          (acc.1 ++ [{ st with count := sg.count, sum := sg.sum, mean := sg.mean }],
            acc.2.set idx
              { sg with sum := sg.sum + sumDiffSq data st.firstId st.lastId sg.mean }))
    ([], sgs0)

/-- The first pass without aggregation: each stage's `sum` is overwritten
with the sum of squared deviations of its own points from its own mean
(`stages[i].sum = sumdiffsqrd`). -/
def sdPass1NoAgg (data : List ChartDataPoint) (stages : List Stage) : List Stage :=
  stages.map (fun st => { st with sum := sumDiffSq data st.firstId st.lastId st.mean })

/-- The second pass: per stage, take `sum/count` from its subgroup
(aggregation on) or from the stage itself, and store the radicand of
`sd = Math.sqrt(count > 8 ? sum/count : sum/(count-1))` in `sdArg`.  The
source further sets `uCL/lCL = mean ± numsds * sd` and `sd` itself; these
are real square roots of `sdArg` and appear only in theorem statements
(`numsds` is kept in the signature for the correspondence). -/
def sdPass2 (numsds : ℚ) (sdTotal : Bool) (sgs : List SubGroup)
    (stages : List Stage) : List Stage :=
  stages.map (fun st =>
    let sc : ℚ × ℕ :=
      if sdTotal then
        match findIndexByKeyValue sgs st.stage with
        | some idx =>
          match sgs[idx]? with
          | some sg => (sg.sum, sg.count)
          | none => (st.sum, st.count)
        | none => (st.sum, st.count)
      else (st.sum, st.count)
    { st with sdArg :=
        if sc.2 > 8 then sc.1 / (sc.2 : ℚ) else sc.1 / ((sc.2 : ℚ) - 1) })

/-- Strategy B's `CalcStats(numsds)`: `GetUnique` when aggregation is on,
then the squared-deviation pass, then the per-stage `sd` radicand.  The
polyline construction of lines 918–929 involves the irrational `uCL/lCL`
and is exercised by no claim, so it is not modelled. -/
def CalcStats_SD (numsds : ℚ) (sdTotal : Bool) (data : List ChartDataPoint)
    (stages : List Stage) : List Stage :=
  if sdTotal then
    let p1 := sdPass1Agg data stages (GetUnique stages)
    sdPass2 numsds sdTotal p1.2 p1.1
  else
    sdPass2 numsds sdTotal [] (sdPass1NoAgg data stages)

/-- The aggregation pass only rewrites `count/sum/mean`: the index ranges
of the stages pass through unchanged. -/
theorem sdPass1Agg_ids (data : List ChartDataPoint) :
    ∀ (stages : List Stage) (done : List Stage) (sgs : List SubGroup),
    (stages.foldl
        (fun acc st =>
          match findIndexByKeyValue acc.2 st.stage with
          | none => (acc.1 ++ [st], acc.2)
          | some idx =>
            match acc.2[idx]? with
            | none => (acc.1 ++ [st], acc.2)
            | some sg =>
              (acc.1 ++ [{ st with count := sg.count, sum := sg.sum, mean := sg.mean }],
                acc.2.set idx
                  { sg with sum := sg.sum + sumDiffSq data st.firstId st.lastId sg.mean }))
        (done, sgs)).1.map (fun st => (st.firstId, st.lastId))
      = done.map (fun st => (st.firstId, st.lastId))
        ++ stages.map (fun st => (st.firstId, st.lastId)) := by
  intro stages
  induction stages with
  | nil => intro done sgs; simp
  | cons st rest ih =>
    intro done sgs
    rw [List.foldl_cons]
    cases hfind : findIndexByKeyValue sgs st.stage with
    | none => simp only [hfind]; rw [ih]; simp
    | some idx =>
      cases hget : sgs[idx]? with
      | none => simp only [hfind, hget]; rw [ih]; simp
      | some sg => simp only [hfind, hget]; rw [ih]; simp

/-- The second pass only rewrites `sdArg`: index ranges pass through. -/
theorem sdPass2_ids (numsds : ℚ) (sdTotal : Bool) (sgs : List SubGroup)
    (stages : List Stage) :
    (sdPass2 numsds sdTotal sgs stages).map (fun st => (st.firstId, st.lastId))
      = stages.map (fun st => (st.firstId, st.lastId)) := by
  rw [sdPass2, List.map_map]
  exact List.map_congr_left (fun st _ => rfl)

/-- The no-aggregation first pass only rewrites `sum`. -/
theorem sdPass1NoAgg_ids (data : List ChartDataPoint) (stages : List Stage) :
    (sdPass1NoAgg data stages).map (fun st => (st.firstId, st.lastId))
      = stages.map (fun st => (st.firstId, st.lastId)) := by
  rw [sdPass1NoAgg, List.map_map]
  exact List.map_congr_left (fun st _ => rfl)

/-- Claim C1 (code bug in strategy B with aggregation, the default): one
stage labelled `A` with values `[3, 3]`.  Every deviation from the group
mean 3 is zero (second conjunct), so the claimed `sd` is
`√(0/(2-1)) = 0` and `uCL = lCL = mean`.  The code's subgroup `sum`
starts as the raw value sum 6 and is never reset before the squared
deviations are accumulated into it, so the radicand the code passes to
`Math.sqrt` is `6/(2-1) = 6` (first conjunct) and the computed
`sd = √6 ≠ 0 = √(true sum of squares)` (fourth conjunct).  Without
aggregation the same input yields the correct radicand 0 (third
conjunct), which shows the intent. -/
theorem C1_sd_sum_contamination :
    ((CalcStats_SD 3 true (mkData [3, 3])
        (GetStages (mkData [3, 3]) (some [.str "A", .str "A"]))).map Stage.sdArg)
      = [6] ∧
    sumDiffSq (mkData [3, 3]) 0 1 3 = 0 ∧
    ((CalcStats_SD 3 false (mkData [3, 3])
        (GetStages (mkData [3, 3]) (some [.str "A", .str "A"]))).map Stage.sdArg)
      = [0] ∧
    Real.sqrt 6 ≠ Real.sqrt 0 := by
  refine ⟨?_, by norm_num [sumDiffSq, yAt, mkData, List.range'], ?_, ?_⟩
  · norm_num [CalcStats_SD, GetStages, getStagesGo, stageLabelAt, initStage,
      accumStage, closeStage, reopenStage, finalStage, GetUnique,
      findIndexByKeyValue, findIndexByKeyValueGo, sdPass1Agg, sdPass2,
      sumDiffSq, yAt, mkData, Prim.numVal, List.range']
  · norm_num [CalcStats_SD, GetStages, getStagesGo, stageLabelAt, initStage,
      accumStage, closeStage, reopenStage, finalStage, sdPass1NoAgg, sdPass2,
      sumDiffSq, yAt, mkData, Prim.numVal, List.range']
  · rw [Real.sqrt_zero]
    exact ne_of_gt (Real.sqrt_pos.mpr (by norm_num))

/-- Claim C3 counterexample: values `[1, 2, 3]` with labels `A, B, A` and
aggregation on.  After segmentation the three stages have counts
`[1, 1, 1]` summing to `n = 3`, but strategy B's limit pass overwrites
each stage's `count` with its subgroup's total, giving `[2, 1, 2]` whose
sum is 5 ≠ 3. -/
theorem C3_sum_count_cex :
    ((CalcStats_SD 3 true (mkData [1, 2, 3])
        (GetStages (mkData [1, 2, 3])
          (some [.str "A", .str "B", .str "A"]))).map Stage.count)
      = [2, 1, 2] ∧
    (mkData [1, 2, 3]).length = 3 := by
  have hAB : (("A" : String) = "B") ↔ False :=
    ⟨fun h => absurd h (by decide), False.elim⟩
  have hBA : (("B" : String) = "A") ↔ False :=
    ⟨fun h => absurd h (by decide), False.elim⟩
  refine ⟨?_, by rfl⟩
  norm_num [CalcStats_SD, GetStages, getStagesGo, stageLabelAt, initStage,
    accumStage, closeStage, reopenStage, finalStage, GetUnique,
    findIndexByKeyValue, findIndexByKeyValueGo, sdPass1Agg, sdPass2,
    sumDiffSq, yAt, mkData, Prim.numVal, List.range', hAB, hBA]

/-- Claim C3 as amended: for every non-empty series the segmenter's output
tiles `[0, n-1]` exactly (contiguous, non-overlapping, in position order)
with `Σ count = n`; limit calculation preserves every stage's
`firstId..lastId` range (both strategies), and strategy A also preserves
the counts — but strategy B with aggregation can overwrite `count`
(see the counterexample), so the `Σ count = n` part survives the limit
pass only outside that case. -/
theorem C3_stage_partition :
    (∀ (dps : List ChartDataPoint) (labels : Option (List Prim)), dps ≠ [] →
      chainFrom dps.length 0 (GetStages dps labels) = true ∧
      ((GetStages dps labels).map Stage.count).sum = dps.length) ∧
    (∀ (numsds : ℚ) (mr : ℕ) (vmFlag : Bool) (data : List ChartDataPoint)
        (stages : List Stage),
      (CalcStats_MR numsds mr vmFlag data stages).stages.map
          (fun st => (st.firstId, st.lastId, st.count))
        = stages.map (fun st => (st.firstId, st.lastId, st.count))) ∧
    (∀ (numsds : ℚ) (sdTotal : Bool) (data : List ChartDataPoint)
        (stages : List Stage),
      (CalcStats_SD numsds sdTotal data stages).map
          (fun st => (st.firstId, st.lastId))
        = stages.map (fun st => (st.firstId, st.lastId))) := by
  refine ⟨GetStages_partition, ?_, ?_⟩
  · intro numsds mr vmFlag data stages
    show (stages.map (processStageMR numsds mr (LookUpd2 mr) data)).map _ = _
    rw [List.map_map]
    refine List.map_congr_left (fun st _ => ?_)
    show ((processStageMR numsds mr (LookUpd2 mr) data st).firstId, _, _) = _
    rw [processStageMR]
    split_ifs <;> rfl
  · intro numsds sdTotal data stages
    cases sdTotal with
    | false =>
      show (sdPass2 numsds false [] (sdPass1NoAgg data stages)).map
          (fun st => (st.firstId, st.lastId))
        = stages.map (fun st => (st.firstId, st.lastId))
      rw [sdPass2_ids, sdPass1NoAgg_ids]
    | true =>
      show (sdPass2 numsds true (sdPass1Agg data stages (GetUnique stages)).2
            (sdPass1Agg data stages (GetUnique stages)).1).map
          (fun st => (st.firstId, st.lastId))
        = stages.map (fun st => (st.firstId, st.lastId))
      rw [sdPass2_ids, sdPass1Agg]
      rw [sdPass1Agg_ids data stages [] (GetUnique stages)]
      simp

/-- Witness for C3: the three-point, two-label series `[1, 2, 3]` with
labels `A, A, B` tiles `[0, 2]` and its counts sum to 3. -/
theorem C3_stage_partition_witness :
    chainFrom 3 0 (GetStages (mkData [1, 2, 3])
      (some [.str "A", .str "A", .str "B"])) = true ∧
    ((GetStages (mkData [1, 2, 3])
      (some [.str "A", .str "A", .str "B"])).map Stage.count).sum = 3 :=
  C3_stage_partition.1 (mkData [1, 2, 3])
    (some [.str "A", .str "A", .str "B"]) (by simp [mkData])

/-! ## `visualTransform` and the `update` pipeline (moving-range file
lines 161–295 and 325–367; subgroup file lines 161–287 and 315–348).

The host data view is modelled structurally: `Option` encodes a missing
(`undefined`) member, and a JS member access on `undefined` — a
`TypeError` escaping to the caller — is modelled as `Except.error`.
Cosmetic settings (colors, formats, titles) read through `getValue` are
pass-through data the engine never interprets; they and the resolved
configuration enter the pipeline as parameters. -/

/-- A measure column (`categorical.values[i]`). -/
structure ValueColumn where
  values : List Prim
deriving DecidableEq, Repr

/-- The category column (`categorical.categories[0]`); `source` records
whether its `source` member is truthy. -/
structure CategoryColumn where
  source : Bool
  values : List Prim
deriving DecidableEq, Repr

/-- `dataView.categorical` with its possibly-missing members. -/
structure Categorical where
  categories : Option (List CategoryColumn)
  values : Option (List ValueColumn)
deriving DecidableEq, Repr

/-- One data view. -/
structure DataView where
  categorical : Option Categorical
deriving DecidableEq, Repr

/-- `isXAxisUsable` (moving-range file line 201): the first position is
truthy and is a number or a date.  (A numeric position `0` is falsy in
JS, so it fails this check.) -/
def isXAxisUsable (xs : List Prim) : Bool :=
  match xs.head? with
  | some p => p.truthy && (match p with | .num _ => true | .date _ => true | _ => false)
  | none => false

/-- `isYAxisNumericData` (line 202): the first measure value is truthy
and is a number. -/
def isYAxisNumericData (ys : List Prim) : Bool :=
  match ys.head? with
  | some p => p.truthy && (match p with | .num _ => true | _ => false)
  | none => false

/-- The point-building loop (`for i in 0..xValues.length`): the raw
position and the measure value taken numerically (the TS `<number>` cast
reinterprets the value, which every claim exercises only on numbers). -/
def buildPoints (xs ys : List Prim) : List ChartDataPoint :=
  (List.range xs.length).map (fun i => ⟨xs.getD i Prim.null, (ys.getD i Prim.null).numVal⟩)

/-- `visualTransform` of the moving-range file: the guard chain
`!dataViews || !dataViews[0] || !categorical || !categories ||
!categories[0].source || !values` returns the neutral view model (here:
its `dataPoints`, which are all that flows on), then both axis-type checks
must pass before any point is built.  `categories[0].source` with an empty
`categories` array and `dataValue.values` with an empty `values` array
dereference `undefined` and are the two error outcomes. -/
def visualTransform_MR (dvs : List DataView) : Except Unit (List ChartDataPoint) :=
  match dvs.head? with
  | none => .ok []
  | some dv =>
    match dv.categorical with
    | none => .ok []
    | some cat =>
      match cat.categories with
      | none => .ok []
      | some cats =>
        match cats.head? with
        | none => .error ()
        | some c0 =>
          if !c0.source then .ok []
          else
            match cat.values with
            | none => .ok []
            | some vals =>
              match vals.head? with
              | none => .error ()
              | some v0 =>
                if isXAxisUsable c0.values && isYAxisNumericData v0.values then
                  .ok (buildPoints c0.values v0.values)
                else .ok []

/-- `visualTransform` of the subgroup file: the same guard chain but **no
axis-type checks** — the points are built from whatever the columns hold
(`ChartDataPoints[0].xValue` is then dereferenced for the date test, an
error when the category column is empty). -/
def visualTransform_SD (dvs : List DataView) : Except Unit (List ChartDataPoint) :=
  match dvs.head? with
  | none => .ok []
  | some dv =>
    match dv.categorical with
    | none => .ok []
    | some cat =>
      match cat.categories with
      | none => .ok []
      | some cats =>
        match cats.head? with
        | none => .error ()
        | some c0 =>
          if !c0.source then .ok []
          else
            match cat.values with
            | none => .ok []
            | some vals =>
              match vals.head? with
              | none => .error ()
              | some v0 =>
                match c0.values.head? with
                | none => .error ()
                | some _ => .ok (buildPoints c0.values v0.values)

/-- The stage-label stream `GetStages` reads: the second value column's
values when it exists, otherwise none (`noStages`). -/
def stageLabelsOf (cat : Categorical) : Option (List Prim) :=
  match cat.values with
  | some vals =>
    match vals[1]? with
    | some col => some col.values
    | none => none
  | none => none

/-- Everything the moving-range pipeline produces for the renderer. -/
structure ChartResult where
  dataPoints : List ChartDataPoint
  stages : List Stage
  meanLine : List Segment
  uclLines : List Segment
  lclLines : List Segment
  flags : List ℕ
  mRError : Bool
deriving DecidableEq, Repr

/-- The neutral empty result: no points, no stages, no segments, no
flags, no warning. -/
def neutralResult : ChartResult := ⟨[], [], [], [], [], [], false⟩

/-- `update` of the moving-range file: dereference
`dataViews[0].categorical` (an error when either is missing), return with
nothing drawn when `categories` or `values` is `undefined`, run
`visualTransform`, and stop (neutral) unless `dataPoints[0]` exists;
otherwise run `GetStages`, `CalcStats` and `ApplyRules`.  The effective
window is the clamped `movingRange`, an integer in `[2, 50]`
(`C9_moving_range_window`), taken here as a natural number. -/
def update_MR (dvs : List DataView) (cfg : RuleConfig) (numsds : ℚ)
    (rawMR : Option ℚ) : Except Unit ChartResult :=
  match dvs.head? with
  | none => .error ()
  | some dv =>
    match dv.categorical with
    | none => .error ()
    | some cat =>
      if cat.categories = none ∨ cat.values = none then .ok neutralResult
      else
        match visualTransform_MR dvs with
        | .error e => .error e
        | .ok dataPoints =>
          if dataPoints.head? = none then .ok neutralResult
          else
            let mr := (⌊resolveMovingRange rawMR⌋).toNat
            let R := CalcStats_MR numsds mr false dataPoints
              (GetStages dataPoints (stageLabelsOf cat))
            .ok { dataPoints := dataPoints, stages := R.stages,
                  meanLine := R.meanLine, uclLines := R.uclLines,
                  lclLines := R.lclLines,
                  flags := ApplyRules cfg dataPoints R.stages,
                  mRError := R.mRError }

/-- What the subgroup pipeline produces (its segment lists are the
irrational-limit polylines, not modelled — see `CalcStats_SD`). -/
structure ChartResultSD where
  dataPoints : List ChartDataPoint
  stages : List Stage
  flags : List ℕ
deriving DecidableEq, Repr

/-- The subgroup pipeline's neutral result. -/
def neutralResultSD : ChartResultSD := ⟨[], [], []⟩

/-- `update` of the subgroup file, analogously. -/
def update_SD (dvs : List DataView) (cfg : RuleConfig) (numsds : ℚ)
    (sdTotal : Bool) : Except Unit ChartResultSD :=
  match dvs.head? with
  | none => .error ()
  | some dv =>
    match dv.categorical with
    | none => .error ()
    | some cat =>
      if cat.categories = none ∨ cat.values = none then .ok neutralResultSD
      else
        match visualTransform_SD dvs with
        | .error e => .error e
        | .ok dataPoints =>
          if dataPoints.head? = none then .ok neutralResultSD
          else
            let stages1 := CalcStats_SD numsds sdTotal dataPoints
              (GetStages dataPoints (stageLabelsOf cat))
            .ok { dataPoints := dataPoints, stages := stages1,
                  flags := ApplyRules cfg dataPoints stages1 }

/-- Claim C6 counterexample: the claim promises the neutral empty result
for an unsupported position type, but the subgroup version has no
position-type validation.  String positions `["a", "b"]` with numeric
values `[1, 2]` flow through its whole pipeline: two data points and one
stage are produced instead of the neutral result. -/
theorem C6_sd_unsupported_position_cex :
    ((update_SD [⟨some ⟨some [⟨true, [.str "a", .str "b"]⟩],
        some [⟨[.num 1, .num 2]⟩]⟩⟩] ⟨false, false, false⟩ 3 true).map
      (fun r => (r.dataPoints.length, r.stages.length))) = .ok (2, 1) := by
  rfl

/-- Claim C6 as amended: in the moving-range version, an absent category
axis, an absent measure column, an unsupported (or falsy) first position,
or a non-numeric (or falsy) first measure value all make `update` return
the neutral empty result — no data points, no stages, no segments, no
flags, no warning — with no exception; the subgroup version returns its
neutral result for the absent-member cases but performs no type check
(see the counterexample). -/
theorem C6_invalid_input_neutral :
    (∀ (dvs : List DataView) (cfg : RuleConfig) (numsds : ℚ) (rawMR : Option ℚ)
        (dv : DataView) (cat : Categorical),
      dvs.head? = some dv → dv.categorical = some cat →
      (cat.categories = none ∨ cat.values = none ∨
        (∃ cats c0 vals v0, cat.categories = some (c0 :: cats) ∧ c0.source = true ∧
          cat.values = some (v0 :: vals) ∧
          (isXAxisUsable c0.values = false ∨ isYAxisNumericData v0.values = false))) →
      update_MR dvs cfg numsds rawMR = .ok neutralResult) ∧
    (∀ (dvs : List DataView) (cfg : RuleConfig) (numsds : ℚ) (sdTotal : Bool)
        (dv : DataView) (cat : Categorical),
      dvs.head? = some dv → dv.categorical = some cat →
      (cat.categories = none ∨ cat.values = none) →
      update_SD dvs cfg numsds sdTotal = .ok neutralResultSD) := by
  constructor
  · intro dvs cfg numsds rawMR dv cat hdv hcat hbad
    rcases hbad with h | h | ⟨cats, c0, vals, v0, hcats, hsrc, hvals, htype⟩
    · simp [update_MR, hdv, hcat, h]
    · simp [update_MR, hdv, hcat, h]
    · have hne1 : cat.categories ≠ none := by rw [hcats]; simp
      have hne2 : cat.values ≠ none := by rw [hvals]; simp
      have htr : visualTransform_MR dvs = .ok [] := by
        rcases htype with hx | hy
        · simp [visualTransform_MR, hdv, hcat, hcats, hvals, hsrc, hx]
        · simp [visualTransform_MR, hdv, hcat, hcats, hvals, hsrc, hy]
      simp [update_MR, hdv, hcat, hne1, hne2, htr]
  · intro dvs cfg numsds sdTotal dv cat hdv hcat hbad
    rcases hbad with h | h
    · simp [update_SD, hdv, hcat, h]
    · simp [update_SD, hdv, hcat, h]

/-- Witness for C6: a data view with a measure but no category axis makes
the moving-range `update` return the neutral result. -/
theorem C6_invalid_input_neutral_witness :
    update_MR [⟨some ⟨none, some [⟨[.num 1]⟩]⟩⟩] ⟨false, false, false⟩ 3 none
      = .ok neutralResult :=
  C6_invalid_input_neutral.1 [⟨some ⟨none, some [⟨[.num 1]⟩]⟩⟩]
    ⟨false, false, false⟩ 3 none ⟨some ⟨none, some [⟨[.num 1]⟩]⟩⟩
    ⟨none, some [⟨[.num 1]⟩]⟩ rfl rfl (Or.inl rfl)

end ControlChart
